import Mathlib

/-!
Verification development for the whisper batch-transcription pipeline.

The development shallowly embeds the pure control flow and data transformations
of the repository's Python sources:

* `ds_creator.py` — silence-aligned audio segmentation
  (`split_to_chunks_shorter_than_max`, `generate_audio_chunks`);
* `whisperProgressLogger.py` — the checkpoint ledger
  (`check_dataset_progress`, `update_dataset_progress`, accessors,
  `_read_progress_file` bootstrap/corruption behaviour);
* `whisper.py` — the per-dataset transcription driver loop
  (`generate_transcript`, lines 127-159) and
  `microseconds_to_audio_timestamp`;
* `whisperCryptoHelper.py` — the archive codec
  (`_zip` member layout, `encrypt_and_zip`, `decrypt_and_unzip`,
  `add_file_extension`, `remove_file_extension`).

External collaborators (pydub's `split_on_silence`, the Fernet cipher, the
`zipfile` serializer, the speech-to-text model, boto3) are not part of the
repository; they enter as function parameters, and the few facts needed about
them (the silence detector partitions its input, the cipher and the zip
serializer invert themselves) appear as explicit hypotheses of the theorems
that need them.

An audio buffer is modelled as a list of samples (`Audio α`); its duration in
milliseconds is its length, mirroring pydub's `len(audio_segment)`.

File-system side effects (opening, flushing, deleting) are modelled by
explicit state: the transcript artifact is the ordered list of strings passed
to `file.write` (each such write is followed by `file.flush()` in the source,
so the list is also the list of durably flushed units).
-/

namespace Whisper

/-- An audio buffer: a list of samples. `pydub.AudioSegment` exposes its
duration in milliseconds through `len`, modelled here by `List.length`;
slicing and `+=` concatenation are list operations. -/
abbrev Audio (α : Type) : Type := List α

/-- Embedding of `ds_creator.split_to_chunks_shorter_than_max`
(`src/ds_creator.py` lines 127-153).  `split_on_silence` is pydub's external
silence detector, taking the buffer, `min_silence_len` and `silence_thresh`
(the source fixes `keep_silence=True` and `seek_step=50`, which have no
counterpart in this abstraction).  Every detected spot longer than
`max_chunk_length` is re-split with the threshold relaxed by the fixed
`threshold_step = 5`, but only while `silence_threshold < 0`; otherwise the
spot is emitted as-is (the source logs a warning in the oversized case). -/
def split_to_chunks_shorter_than_max {α : Type}
    (split_on_silence : Audio α → Nat → Int → List (Audio α))
    (min_silence_len : Nat) (silence_threshold : Int) (max_chunk_length : Nat)
    (audio_file : Audio α) : List (Audio α) :=
  (split_on_silence audio_file min_silence_len silence_threshold).flatMap fun ss =>
    if h : ss.length > max_chunk_length ∧ silence_threshold < 0 then
      split_to_chunks_shorter_than_max split_on_silence min_silence_len
        (silence_threshold + 5) max_chunk_length ss
    else
      [ss]
termination_by (-silence_threshold).toNat
decreasing_by
  simp_wf
  omega

/-- Fuel-indexed variant of `split_to_chunks_shorter_than_max`: each level of
threshold relaxation consumes one unit of fuel and `none` reports fuel
exhaustion.  It is used to state that the source's recursion depth is bounded
(claim C5): enough fuel always yields `some` of the unbounded function's
result. -/
def splitToChunksFuel {α : Type}
    (split_on_silence : Audio α → Nat → Int → List (Audio α))
    (min_silence_len : Nat) : Nat → Int → Nat → Audio α → Option (List (Audio α))
  | 0, _, _, _ => none
  | fuel + 1, silence_threshold, max_chunk_length, audio_file => do
    let pieces ← (split_on_silence audio_file min_silence_len silence_threshold).mapM fun ss =>
      if ss.length > max_chunk_length ∧ silence_threshold < 0 then
        splitToChunksFuel split_on_silence min_silence_len fuel
          (silence_threshold + 5) max_chunk_length ss
      else
        pure [ss]
    pure pieces.flatten

/-- The greedy coalescing loop inside `ds_creator.generate_audio_chunks`
(`src/ds_creator.py` lines 118-123): `output_chunks = [silent_spots[0]]`, then
each further spot is merged into the last chunk while the combined length
stays strictly below `max_chunk_length`, and otherwise starts a new chunk.
`current` is the chunk under construction (`output_chunks[-1]`). -/
def coalesceChunks {α : Type} (max_chunk_length : Nat) :
    Audio α → List (Audio α) → List (Audio α)
  | current, [] => [current]
  | current, ss :: rest =>
    if current.length + ss.length < max_chunk_length then
      coalesceChunks max_chunk_length (current ++ ss) rest
    else
      current :: coalesceChunks max_chunk_length ss rest

/-- Embedding of `ds_creator.generate_audio_chunks` (`src/ds_creator.py`
lines 107-124).  The source starts from `silent_spots[0]`, which raises
`IndexError` when the detection pipeline produced no spots; that partial
behaviour is modelled by `none`. -/
def generate_audio_chunks {α : Type}
    (split_on_silence : Audio α → Nat → Int → List (Audio α))
    (min_silence_len : Nat) (silence_threshold : Int) (max_chunk_length : Nat)
    (audio_file : Audio α) : Option (List (Audio α)) :=
  match split_to_chunks_shorter_than_max split_on_silence min_silence_len
      silence_threshold max_chunk_length audio_file with
  | [] => none
  | s0 :: rest => some (coalesceChunks max_chunk_length s0 rest)

/-- A contiguous span of the 70,000 ms reference clip of the specification's
segmentation trace; samples are abstract (`Unit`), only duration matters. -/
def piece (startMs endMs : Nat) : Audio Unit :=
  List.replicate (endMs - startMs) ()

/-- The 70,000 ms reference clip itself. -/
def audio70 : Audio Unit := List.replicate 70000 ()

/-- The silence-detection outcome fixed by the specification's reference
trace: boundaries at 10,000 / 35,000 / 42,000 / 68,000 ms.  On anything else
the detector returns its input unsplit, so the trace exercises only the
top-level call. -/
def detector70 (a : Audio Unit) (_minSilenceLen : Nat) (_silenceThreshold : Int) :
    List (Audio Unit) :=
  if a.length = 70000 then
    [piece 0 10000, piece 10000 35000, piece 35000 42000,
     piece 42000 68000, piece 68000 70000]
  else
    [a]

/-! ### Checkpoint ledger (`src/whisperProgressLogger.py`) -/

/-- One entry of the ledger document's `datasets` list
(`WhisperProgressLogger`'s JSON labels `ds_name`, `processed`,
`last_processed_chunk`, `total_processed_length`).  A fresh entry carries
`last_processed_chunk = -1` and `total_processed_length = 0`. -/
structure DsRecord where
  ds_name : String
  processed : Bool
  last_processed_chunk : Int
  total_processed_length : Nat
deriving DecidableEq, Repr

/-- In-memory state of a `WhisperProgressLogger`: the parsed ledger document
(`progress_file_data`, reduced to its `datasets` list) plus the active record
`progress_current_ds_data`.  In Python the active record is an alias into the
list, so it is modelled as an index (`none` before any
`check_dataset_progress` call, when the active record is the unconnected
empty dict `\x7b\x7d`). -/
structure ProgressState where
  datasets : List DsRecord
  currentIdx : Option Nat
deriving DecidableEq, Repr

/-- The fresh entry appended by `check_dataset_progress` for an unseen
dataset name (`fresh_ds_entry`, `src/whisperProgressLogger.py` lines 69-72). -/
def freshEntry (dataset_name : String) : DsRecord :=
  { ds_name := dataset_name
    processed := false
    last_processed_chunk := -1
    total_processed_length := 0 }

/-- Embedding of `WhisperProgressLogger.check_dataset_progress`
(`src/whisperProgressLogger.py` lines 67-82): look the name up in order; on a
hit make that record active and return; on a miss append `fresh_ds_entry`,
make it active and persist.  Persistence rewrites the whole document, so the
in-memory list is also the stored one. -/
def check_dataset_progress (dataset_name : String) (s : ProgressState) : ProgressState :=
  match s.datasets.findIdx? (fun d => d.ds_name == dataset_name) with
  | some i => { s with currentIdx := some i }
  | none =>
    { datasets := s.datasets ++ [freshEntry dataset_name]
      currentIdx := some s.datasets.length }

/-- The active record, when one is set and in range (the alias
`progress_current_ds_data`). -/
def currentRecord (s : ProgressState) : Option DsRecord :=
  s.currentIdx.bind fun i => s.datasets[i]?

/-- Embedding of `WhisperProgressLogger.is_dataset_processed`. -/
def is_dataset_processed (s : ProgressState) : Option Bool :=
  (currentRecord s).map (·.processed)

/-- Embedding of `WhisperProgressLogger.get_dataset_last_processed_chunk`. -/
def get_dataset_last_processed_chunk (s : ProgressState) : Option Int :=
  (currentRecord s).map (·.last_processed_chunk)

/-- Embedding of `WhisperProgressLogger.get_dataset_total_processed_length`. -/
def get_dataset_total_processed_length (s : ProgressState) : Option Nat :=
  (currentRecord s).map (·.total_processed_length)

/-- Embedding of `WhisperProgressLogger.update_dataset_progress`
(`src/whisperProgressLogger.py` lines 96-100): overwrite the two pointer
fields of the active record (in place, hence through the index) and persist
the whole document. -/
def update_dataset_progress (processed_chunk_number : Int)
    (total_processed_length : Nat) (s : ProgressState) : ProgressState :=
  match s.currentIdx with
  | some i =>
    { s with
      datasets := s.datasets.modify
        (fun r =>
          { r with
            last_processed_chunk := processed_chunk_number
            total_processed_length := total_processed_length }) i }
  | none => s

/-- Embedding of `WhisperProgressLogger.mark_dataset_as_processed`
(`src/whisperProgressLogger.py` lines 102-105). -/
def mark_dataset_as_processed (s : ProgressState) : ProgressState :=
  match s.currentIdx with
  | some i =>
    { s with datasets := s.datasets.modify (fun r => { r with processed := true }) i }
  | none => s

/-- What `_read_progress_file` can find at `progress_filepath`: no file at
all, a file whose JSON fails to parse, or a well-formed ledger document
(reduced to its `datasets` list). -/
inductive LedgerFile where
  | absent
  | malformed
  | wellFormed (datasets : List DsRecord)
deriving DecidableEq, Repr

/-- The Python exceptions `open`/`json.load` can raise inside
`_read_progress_file`. -/
inductive PyError where
  | fileNotFoundError
  | jsonDecodeError
deriving DecidableEq, Repr

/-- The `open` + `json.load` step of `_read_progress_file`:
a missing file raises `FileNotFoundError`, unparsable JSON raises
`json.JSONDecodeError`, and otherwise the document is returned. -/
def openAndLoad : LedgerFile → Except PyError (List DsRecord)
  | .absent => .error .fileNotFoundError
  | .malformed => .error .jsonDecodeError
  | .wellFormed datasets => .ok datasets

/-- Embedding of `WhisperProgressLogger._read_progress_file`
(`src/whisperProgressLogger.py` lines 40-49): the `try` block catches exactly
`FileNotFoundError`, replacing the document by the empty ledger and writing
it back immediately (`_write_progress_file`); every other error propagates.
The result pairs the in-memory document with the file's state afterwards. -/
def read_progress_file (f : LedgerFile) :
    Except PyError (List DsRecord × LedgerFile) :=
  match openAndLoad f with
  | .ok datasets => .ok (datasets, f)
  | .error .fileNotFoundError => .ok ([], .wellFormed [])
  | .error e => .error e

/-! ### Pipeline driver (`src/whisper.py`) -/

/-- One row of a loaded dataset as `generate_transcript` reads it: the field
`d['filename']` routed to the transcriber and the duration `d['len']`
accumulated into the progress total. -/
structure DsItem where
  filename : String
  len : Nat
deriving DecidableEq, Repr

/-- State threaded through the driver's processing loop for one dataset:
the output artifact (the ordered strings passed to `file.write`, each
followed in the source by `file.flush()`), the enumerate indices at which the
transcriber collaborator was invoked, the running `current_length`, and the
ledger state. -/
structure LoopState where
  file : List String
  calls : List Nat
  current_length : Nat
  progress : ProgressState
deriving DecidableEq, Repr

/-- One iteration of the loop of `generate_transcript`
(`src/whisper.py` lines 144-156): a chunk with `i <= last_processed_chunk` is
skipped outright; otherwise the length is accumulated, the transcriber is
invoked on `str(dir_path) + '/' + d['filename']`, the prediction plus a
newline is written and flushed, and `update_dataset_progress(i,
current_length)` checkpoints (the AWS mirror push of artifact and ledger is a
remote no-op locally and does not change this state). -/
def processChunk (transcribe : String → String) (dir_path : String)
    (last_processed_chunk : Int) (st : LoopState) (i : Nat) (d : DsItem) :
    LoopState :=
  if (i : Int) ≤ last_processed_chunk then
    st
  else
    let current_length := st.current_length + d.len
    let prediction_text := transcribe (dir_path ++ "/" ++ d.filename)
    { file := st.file ++ [prediction_text ++ "\n"]
      calls := st.calls ++ [i]
      current_length := current_length
      progress := update_dataset_progress (i : Int) current_length st.progress }

/-- The `for i, d in enumerate(ds)` loop of `generate_transcript`, with `i`
the running enumerate index. -/
def processLoop (transcribe : String → String) (dir_path : String)
    (last_processed_chunk : Int) : Nat → List DsItem → LoopState → LoopState
  | _, [], st => st
  | i, d :: rest, st =>
    processLoop transcribe dir_path last_processed_chunk (i + 1) rest
      (processChunk transcribe dir_path last_processed_chunk st i d)

/-- Embedding of the body of `generate_transcript` for one dataset
(`src/whisper.py` lines 127-159): `check_dataset_progress`, the
`is_dataset_processed` short-circuit (`continue`, leaving the artifact and
the transcriber untouched), otherwise resume data is read, the artifact is
opened for append on top of `existing_output` (for a resumed dataset the
source first fetches the partial artifact from AWS, a local no-op), the loop
runs, and the record is marked processed (deleting the local working copy
does not affect this state).  `none` models the unreachable `KeyError` of an
accessor called with no active record, which `check_dataset_progress` rules
out. -/
def generate_transcript_ds (transcribe : String → String)
    (dir_path ds_name : String) (ds : List DsItem)
    (existing_output : List String) (p0 : ProgressState) : Option LoopState :=
  let p1 := check_dataset_progress ds_name p0
  match is_dataset_processed p1, get_dataset_last_processed_chunk p1,
      get_dataset_total_processed_length p1 with
  | some true, _, _ => some ⟨existing_output, [], 0, p1⟩
  | some false, some last_processed_chunk, some current_length =>
    let st := processLoop transcribe dir_path last_processed_chunk 0 ds
      ⟨existing_output, [], current_length, p1⟩
    some { st with progress := mark_dataset_as_processed st.progress }
  | _, _, _ => none

/-- The text written for one processed chunk: the transcriber's output for
`dir_path ++ "/" ++ filename`, with the newline appended by
`file.write(prediction_text + '\n')`. -/
def transcriptLine (transcribe : String → String) (dir_path : String)
    (d : DsItem) : String :=
  transcribe (dir_path ++ "/" ++ d.filename) ++ "\n"

/-- The enumerated chunks the loop actually processes when resuming after
`last_processed_chunk = k`: those whose enumerate index (counted from `i`)
escapes the `i <= k` skip. -/
def pendingChunks (k : Int) : Nat → List DsItem → List (Nat × DsItem)
  | _, [] => []
  | i, d :: rest =>
    if (i : Int) ≤ k then pendingChunks k (i + 1) rest
    else (i, d) :: pendingChunks k (i + 1) rest

/-- Embedding of `whisper.microseconds_to_audio_timestamp`
(`src/whisper.py` lines 200-209): despite its name the function treats its
argument as milliseconds (it divides by 3,600,000 for hours) and returns an
`HH:MM:SS.cc` string; `int(microseconds / 100)` on the sub-second remainder
is floor division for the non-negative values that reach it. -/
def microseconds_to_audio_timestamp (microseconds : Nat) : String :=
  let hours := microseconds / 3600000
  let r1 := microseconds - hours * 3600000
  let minutes := r1 / 60000
  let r2 := r1 - minutes * 60000
  let seconds := r2 / 1000
  let r3 := r2 - seconds * 1000
  let milliseconds := r3 / 100
  pad2 hours ++ ":" ++ pad2 minutes ++ ":" ++ pad2 seconds ++ "." ++ pad2 milliseconds
where
  /-- Python's format spec `02d`: decimal, left-padded with `0` to width 2. -/
  pad2 (n : Nat) : String := if n < 10 then "0" ++ toString n else toString n

/-! ### Archive codec (`src/whisperCryptoHelper.py`) -/

/-- The byte content of one file. -/
abbrev FileBytes := List Nat

/-- One member of a zip archive: its stored path (as components) and its
bytes. -/
abbrev Member := List String × FileBytes

/-- A file-system tree rooted at a named file or directory: the input `path`
of `WhisperCryptoHelper._zip`. -/
inductive FsTree where
  | file (name : String) (content : FileBytes)
  | dir (name : String) (children : List FsTree)

/-- The member contributed by a direct child that is a plain file: `os.walk`
reports it in the `files` list of its parent directory. -/
def childFileEntry : FsTree → Option Member
  | .file n c => some ([n], c)
  | .dir _ _ => none

/-- Members contributed by the subdirectories among `children`, in order,
each under its own name — the recursive part of the `os.walk(path)` loop in
`WhisperCryptoHelper._zip` (`src/whisperCryptoHelper.py` lines 53-57), which
visits a directory's files first and then descends top-down.  `os.walk`
yields files only, so an empty subdirectory contributes nothing. -/
def childDirMembers : List FsTree → List Member
  | [] => []
  | .file _ _ :: ts => childDirMembers ts
  | .dir n cs :: ts =>
    ((cs.filterMap childFileEntry ++ childDirMembers cs).map
      (fun m => (n :: m.1, m.2))) ++ childDirMembers ts

/-- The member list of the archive `_zip` builds for `path`
(`src/whisperCryptoHelper.py` lines 49-57): a single file is wrapped under
its own path (`zip_ref.write(path)`); a directory is walked recursively with
every file stored under `os.path.relpath(file, os.path.join(path, '..'))`,
i.e. its path relative to the directory's parent, so each member starts with
the directory's own name. -/
def treeMembers : FsTree → List Member
  | .file n c => [([n], c)]
  | .dir n cs =>
    (cs.filterMap childFileEntry ++ childDirMembers cs).map
      (fun m => (n :: m.1, m.2))

/-- Embedding of `WhisperCryptoHelper.encrypt_and_zip`
(`src/whisperCryptoHelper.py` lines 73-83): serialize the member list of the
input tree into the zip file's bytes (`zipfile`, external, of opaque byte
type `β`), then encrypt those bytes with the Fernet key (external); the
plaintext zip is deleted afterwards, so the encrypted bytes are the only
artifact. -/
def encrypt_and_zip {β : Type} (zipBytes : List Member → β) (encrypt : β → β)
    (path : FsTree) : β :=
  encrypt (zipBytes (treeMembers path))

/-- Embedding of `WhisperCryptoHelper.decrypt_and_unzip`
(`src/whisperCryptoHelper.py` lines 85-96): decrypt the archive bytes with
the Fernet key, extract every member of the resulting zip (`_unzip` returns
the member name list; the intermediate plaintext zip is deleted).  The
result is the extracted member list. -/
def decrypt_and_unzip {β : Type} (unzipBytes : β → List Member)
    (decrypt : β → β) (archive : β) : List Member :=
  unzipBytes (decrypt archive)

/-! ### Archive naming convention (`src/whisperCryptoHelper.py` lines 98-104)

The two helpers operate on path strings; they are embedded over `List Char`.
`Path(p).name` / `Path(p).parent` / `Path(p).stem` and `os.path.join` are
modelled with `pathlib` semantics for already-normalised paths (no trailing
or repeated separators): `name` is the part after the last `/` (all of `p`
when there is none), `parent` is the part before it (`.` when there is
none), `stem` drops the part of `name` from its last dot on, except when
that dot is the leading character or the last one, and `join` inserts a `/`
unless the left part is empty or already ends with one. -/

/-- Splits a list around the last occurrence of `sep`:
`splitRight sep l = some (before, after)` with
`l = before ++ sep :: after` and `sep ∉ after`; `none` when `sep ∉ l`. -/
def splitRight {α : Type} [DecidableEq α] (sep : α) :
    List α → Option (List α × List α)
  | [] => none
  | c :: rest =>
    match splitRight sep rest with
    | some (b, a) => some (c :: b, a)
    | none => if c = sep then some ([], rest) else none

/-- Embeds `pathlib.Path(p).name` for a normalised path. -/
def pathName (p : List Char) : List Char :=
  match splitRight '/' p with
  | some (_, a) => a
  | none => p

/-- Embeds `pathlib.Path(p).parent` for a normalised relative path: the prefix
before the last separator, or `.` when there is no separator. -/
def pathParent (p : List Char) : List Char :=
  match splitRight '/' p with
  | some (b, _) => b
  | none => ['.']

/-- Embeds `pathlib.Path(n).stem` for a file name `n`: `name[:i]` for `i` the index
of the last dot when `0 < i < len(name) - 1`, and `n` itself otherwise. -/
def pyStem (n : List Char) : List Char :=
  match splitRight '.' n with
  | some (b, a) => if b ≠ [] ∧ a ≠ [] then b else n
  | none => n

/-- Embeds `os.path.join(a, b)` for a relative component `b`. -/
def osJoin (a b : List Char) : List Char :=
  if a = [] then b
  else if a.getLast? = some ('/') then a ++ b
  else a ++ '/' :: b

/-- Embedding of `WhisperCryptoHelper.add_file_extension`
(`src/whisperCryptoHelper.py` lines 98-100): append the compression suffix
`.zip`, then the encryption suffix `.crypt`. -/
def add_file_extension (filepath : List Char) : List Char :=
  filepath ++ ".zip".toList ++ ".crypt".toList

/-- Embedding of `WhisperCryptoHelper.remove_file_extension`
(`src/whisperCryptoHelper.py` lines 102-104):
`os.path.join(Path(p).parent, Path(Path(p).stem).stem)` — the parent
rejoined with the final component stripped of its last two extensions. -/
def remove_file_extension (filepath : List Char) : List Char :=
  osJoin (pathParent filepath) (pyStem (pyStem (pathName filepath)))

/-! ## Theorems -/

/-- Total duration of a `flatMap` whose pieces each preserve the duration of
their source element. -/
theorem flatMap_length_sum {α : Type} (f : Audio α → List (Audio α))
    (l : List (Audio α))
    (hf : ∀ ss ∈ l, ((f ss).map List.length).sum = ss.length) :
    ((l.flatMap f).map List.length).sum = (l.map List.length).sum := by
  induction l with
  | nil => simp
  | cons ss rest ih =>
    simp only [List.flatMap_cons, List.map_append, List.sum_append,
      List.map_cons, List.sum_cons]
    rw [hf ss (List.mem_cons_self ss rest),
      ih (fun x hx => hf x (List.mem_cons_of_mem ss hx))]

/-- Threshold relaxation never changes the total duration: provided the
silence detector partitions its input (total duration preserved, as the
specification requires of the collaborator), `split_to_chunks_shorter_than_max`
preserves it too. -/
theorem split_to_chunks_length_sum {α : Type}
    (split_on_silence : Audio α → Nat → Int → List (Audio α))
    (min_silence_len : Nat)
    (hsplit : ∀ (a : Audio α) (th : Int),
      ((split_on_silence a min_silence_len th).map List.length).sum = a.length)
    (silence_threshold : Int) (max_chunk_length : Nat) (audio_file : Audio α) :
    ((split_to_chunks_shorter_than_max split_on_silence min_silence_len
        silence_threshold max_chunk_length audio_file).map List.length).sum =
      audio_file.length := by
  rw [split_to_chunks_shorter_than_max]
  rw [flatMap_length_sum]
  · exact hsplit audio_file silence_threshold
  · intro ss _
    by_cases h : ss.length > max_chunk_length ∧ silence_threshold < 0
    · rw [dif_pos h]
      exact split_to_chunks_length_sum split_on_silence min_silence_len hsplit
        (silence_threshold + 5) max_chunk_length ss
    · rw [dif_neg h]
      simp
termination_by (-silence_threshold).toNat
decreasing_by
  simp_wf
  omega

/-- Greedy coalescing only concatenates adjacent chunks, so it preserves the
total duration. -/
theorem coalesceChunks_length_sum {α : Type} (max_chunk_length : Nat)
    (current : Audio α) (l : List (Audio α)) :
    ((coalesceChunks max_chunk_length current l).map List.length).sum =
      current.length + (l.map List.length).sum := by
  induction l generalizing current with
  | nil => simp [coalesceChunks]
  | cons ss rest ih =>
    rw [coalesceChunks]
    by_cases h : current.length + ss.length < max_chunk_length
    · rw [if_pos h, ih]
      simp
      omega
    · rw [if_neg h]
      simp [ih]

/-- C3: lossless segmentation — whenever `generate_audio_chunks` produces a
segment list (and the silence-detection collaborator preserves total
duration, per its interface contract), the sum of the produced segments'
durations in milliseconds equals the source duration exactly: splitting,
threshold relaxation and coalescing neither drop nor duplicate audio. -/
theorem generate_audio_chunks_lossless {α : Type}
    (split_on_silence : Audio α → Nat → Int → List (Audio α))
    (min_silence_len : Nat) (silence_threshold : Int) (max_chunk_length : Nat)
    (audio_file : Audio α)
    (hsplit : ∀ (a : Audio α) (th : Int),
      ((split_on_silence a min_silence_len th).map List.length).sum = a.length)
    (chunks : List (Audio α))
    (hgen : generate_audio_chunks split_on_silence min_silence_len
      silence_threshold max_chunk_length audio_file = some chunks) :
    (chunks.map List.length).sum = audio_file.length := by
  have hsum := split_to_chunks_length_sum split_on_silence min_silence_len
    hsplit silence_threshold max_chunk_length audio_file
  unfold generate_audio_chunks at hgen
  cases hsc : split_to_chunks_shorter_than_max split_on_silence min_silence_len
      silence_threshold max_chunk_length audio_file with
  | nil =>
    rw [hsc] at hgen
    exact absurd hgen (by simp)
  | cons s0 rest =>
    rw [hsc] at hgen
    simp only [Option.some.injEq] at hgen
    rw [hsc] at hsum
    simp only [List.map_cons, List.sum_cons] at hsum
    rw [← hgen, coalesceChunks_length_sum, hsum]

/-- Witness for C3: a two-sample buffer with an identity detector. -/
theorem generate_audio_chunks_lossless_witness :
    (([([0, 1] : List Nat)]).map List.length).sum = ([0, 1] : List Nat).length :=
  generate_audio_chunks_lossless (fun a _ _ => [a]) 500 (-50) 30000 [0, 1]
    (fun a _ => by simp) [[0, 1]]
    (by
      rw [generate_audio_chunks, split_to_chunks_shorter_than_max]
      norm_num [coalesceChunks])

/-- The duration of a reference piece. -/
theorem piece_length (startMs endMs : Nat) :
    (piece startMs endMs).length = endMs - startMs := by
  rw [piece]
  exact List.length_replicate _ _

/-- The splitting pass of the reference trace: every detected piece is at
most 30,000 ms long, so no threshold relaxation fires and the five pieces
come through unchanged. -/
theorem split70_eq :
    split_to_chunks_shorter_than_max detector70 500 (-50) 30000 audio70 =
      [piece 0 10000, piece 10000 35000, piece 35000 42000,
       piece 42000 68000, piece 68000 70000] := by
  rw [split_to_chunks_shorter_than_max]
  have hdet : detector70 audio70 500 (-50) =
      [piece 0 10000, piece 10000 35000, piece 35000 42000,
       piece 42000 68000, piece 68000 70000] := by
    unfold detector70
    rw [if_pos]
    rw [audio70]
    exact List.length_replicate _ _
  rw [hdet]
  simp only [List.flatMap_cons, List.flatMap_nil, List.append_nil]
  rw [dif_neg (by rw [piece_length]; omega), dif_neg (by rw [piece_length]; omega),
    dif_neg (by rw [piece_length]; omega), dif_neg (by rw [piece_length]; omega),
    dif_neg (by rw [piece_length]; omega)]
  rfl

/-- Evaluation of the reference trace: on the 70,000 ms clip with pieces
bounded at 10,000/35,000/42,000/68,000 ms and a 30,000 ms bound, the greedy
rule closes the current segment at every boundary except the last
(7,000 + 26,000 = 33,000 is not under 30,000, while 26,000 + 2,000 = 28,000
is), so it is the final two pieces that coalesce. -/
theorem generate70_eq :
    generate_audio_chunks detector70 500 (-50) 30000 audio70 =
      some [piece 0 10000, piece 10000 35000, piece 35000 42000,
        piece 42000 68000 ++ piece 68000 70000] := by
  rw [generate_audio_chunks, split70_eq]
  show some (coalesceChunks 30000 (piece 0 10000) [piece 10000 35000,
    piece 35000 42000, piece 42000 68000, piece 68000 70000]) = _
  rw [coalesceChunks, if_neg (by rw [piece_length, piece_length]; omega)]
  rw [coalesceChunks, if_neg (by rw [piece_length, piece_length]; omega)]
  rw [coalesceChunks, if_neg (by rw [piece_length, piece_length]; omega)]
  rw [coalesceChunks, if_pos (by rw [piece_length, piece_length]; omega)]
  rw [coalesceChunks]

/-- C4 counterexample: the specification's step-by-step trace — which
coalesces `[35000,42000)` with `[42000,68000)` — is not what
`generate_audio_chunks` produces on the reference input: their combined
duration is 33,000 ms, not strictly below `maxChunkLength = 30,000`, so the
code starts a new segment there instead. -/
theorem generate_audio_chunks_trace_cex :
    generate_audio_chunks detector70 500 (-50) 30000 audio70 ≠
      some [piece 0 10000, piece 10000 35000,
        piece 35000 42000 ++ piece 42000 68000, piece 68000 70000] := by
  rw [generate70_eq]
  intro h
  simp only [Option.some.injEq, List.cons.injEq, and_true] at h
  obtain ⟨-, -, h3, -⟩ := h
  have hcontra := congrArg List.length h3
  rw [piece_length, List.length_append, piece_length, piece_length] at hcontra
  omega

/-- C4 (amended): on the 70,000 ms reference clip with silence boundaries at
10,000/35,000/42,000/68,000 ms and `maxChunkLength = 30,000`, the greedy
rule (absorb the next piece while the combined length stays strictly below
the bound) produces `[0,10000)`, `[10000,35000)`, `[35000,42000)`, and
`[42000,68000)` coalesced with `[68000,70000)` — the trailing 2,000 ms piece,
not the 26,000 ms one, is absorbed. -/
theorem generate_audio_chunks_trace :
    generate_audio_chunks detector70 500 (-50) 30000 audio70 =
      some [piece 0 10000, piece 10000 35000, piece 35000 42000,
        piece 42000 68000 ++ piece 68000 70000] :=
  generate70_eq

/-- Elementwise `some`-valued `mapM` over `Option` is `some` of the map. -/
theorem mapM_eq_some_map {A B : Type} (f : A → Option B) (g : A → B) :
    ∀ l : List A, (∀ a ∈ l, f a = some (g a)) → l.mapM f = some (l.map g) := by
  intro l
  induction l with
  | nil => intro _; rfl
  | cons a rest ih =>
    intro h
    rw [List.mapM_cons, h a (List.mem_cons_self a rest),
      ih (fun x hx => h x (List.mem_cons_of_mem a hx))]
    rfl

/-- With the threshold already at or above the zero sentinel, no relaxation
is attempted: every detected spot — oversized or not — is emitted as-is. -/
theorem split_to_chunks_no_relax {α : Type}
    (split_on_silence : Audio α → Nat → Int → List (Audio α))
    (min_silence_len : Nat) (silence_threshold : Int) (max_chunk_length : Nat)
    (audio_file : Audio α) (h : 0 ≤ silence_threshold) :
    split_to_chunks_shorter_than_max split_on_silence min_silence_len
        silence_threshold max_chunk_length audio_file =
      split_on_silence audio_file min_silence_len silence_threshold := by
  rw [split_to_chunks_shorter_than_max]
  have hcond : ∀ ss : Audio α,
      ¬ (ss.length > max_chunk_length ∧ silence_threshold < 0) := by
    intro ss hc
    omega
  generalize split_on_silence audio_file min_silence_len silence_threshold = l
  induction l with
  | nil => rfl
  | cons ss rest ih =>
    rw [List.flatMap_cons, dif_neg (hcond ss), ih]
    rfl

/-- Fuel adequacy for the threshold-relaxation recursion: one fuel unit per
relaxation level, and `(-threshold).toNat` bounds the number of levels,
because each level adds the fixed step 5 and recursion stops as soon as the
threshold is no longer negative. -/
theorem splitToChunksFuel_eq {α : Type}
    (split_on_silence : Audio α → Nat → Int → List (Audio α))
    (min_silence_len : Nat) :
    ∀ (fuel : Nat) (silence_threshold : Int) (max_chunk_length : Nat)
      (audio_file : Audio α), (-silence_threshold).toNat < fuel →
      splitToChunksFuel split_on_silence min_silence_len fuel
          silence_threshold max_chunk_length audio_file =
        some (split_to_chunks_shorter_than_max split_on_silence min_silence_len
          silence_threshold max_chunk_length audio_file) := by
  intro fuel
  induction fuel with
  | zero => intro th maxLen audio h; omega
  | succ fuel ih =>
    intro th maxLen audio _
    rw [splitToChunksFuel]
    rw [mapM_eq_some_map _
      (fun ss => if h : ss.length > maxLen ∧ th < 0 then
        split_to_chunks_shorter_than_max split_on_silence min_silence_len
          (th + 5) maxLen ss
      else [ss])]
    · rw [split_to_chunks_shorter_than_max]
      simp [List.flatMap]
    · intro ss _
      by_cases h : ss.length > maxLen ∧ th < 0
      · rw [if_pos h, dif_pos h]
        exact ih (th + 5) maxLen ss (by omega)
      · rw [if_neg h, dif_neg h]
        rfl

/-- C5: termination of threshold relaxation — with more than
`(-silenceThreshold).toNat` units of fuel (one per relaxation level, each
level raising the threshold by the fixed step 5, entered only while the
threshold is below 0), the fuel-indexed recursion never exhausts its fuel
and computes exactly the unbounded function's result; and once the
threshold reaches 0 no further recursion happens — every piece, oversized
or not, is emitted as-is, mirroring the source's warn-and-emit edge case. -/
theorem split_to_chunks_relaxation_terminates {α : Type}
    (split_on_silence : Audio α → Nat → Int → List (Audio α))
    (min_silence_len fuel : Nat) (silence_threshold : Int)
    (max_chunk_length : Nat) (audio_file : Audio α)
    (hfuel : (-silence_threshold).toNat < fuel) :
    splitToChunksFuel split_on_silence min_silence_len fuel silence_threshold
        max_chunk_length audio_file =
      some (split_to_chunks_shorter_than_max split_on_silence min_silence_len
        silence_threshold max_chunk_length audio_file) ∧
    (0 ≤ silence_threshold →
      split_to_chunks_shorter_than_max split_on_silence min_silence_len
          silence_threshold max_chunk_length audio_file =
        split_on_silence audio_file min_silence_len silence_threshold) :=
  ⟨splitToChunksFuel_eq split_on_silence min_silence_len fuel
      silence_threshold max_chunk_length audio_file hfuel,
    split_to_chunks_no_relax split_on_silence min_silence_len
      silence_threshold max_chunk_length audio_file⟩

/-- Witness for C5: starting threshold −50 needs at most 50 units of fuel;
51 suffice for a concrete two-sample buffer under an identity detector. -/
theorem split_to_chunks_relaxation_terminates_witness :
    splitToChunksFuel (fun (a : Audio Nat) _ _ => [a]) 500 51 (-50) 30000 [0, 1] =
      some (split_to_chunks_shorter_than_max (fun (a : Audio Nat) _ _ => [a])
        500 (-50) 30000 [0, 1]) ∧
    (0 ≤ (-50 : Int) →
      split_to_chunks_shorter_than_max (fun (a : Audio Nat) _ _ => [a])
          500 (-50) 30000 [0, 1] =
        (fun (a : Audio Nat) _ _ => [a]) [0, 1] 500 (-50)) :=
  split_to_chunks_relaxation_terminates (fun a _ _ => [a]) 500 51 (-50) 30000
    [0, 1] (by norm_num)

/-- Greedy coalescing always emits at least the chunk under construction. -/
theorem coalesceChunks_ne_nil {α : Type} (max_chunk_length : Nat) :
    ∀ (l : List (Audio α)) (current : Audio α),
      coalesceChunks max_chunk_length current l ≠ [] := by
  intro l
  induction l with
  | nil =>
    intro current h
    simp [coalesceChunks] at h
  | cons ss rest ih =>
    intro current
    rw [coalesceChunks]
    by_cases h : current.length + ss.length < max_chunk_length
    · rw [if_pos h]
      exact ih (current ++ ss)
    · rw [if_neg h]
      simp

/-- C10: implicit precondition of segmentation — `generate_audio_chunks`
indexes `silent_spots[0]`, so it fails (modelled by `none`, the Python
`IndexError`) exactly when the splitting pipeline yields no spots, it never
returns an empty segment list, and in particular an input on which the
silence detector returns the empty list makes it fail rather than return
`some []`. -/
theorem generate_audio_chunks_empty_detection {α : Type}
    (split_on_silence : Audio α → Nat → Int → List (Audio α))
    (min_silence_len : Nat) (silence_threshold : Int) (max_chunk_length : Nat)
    (audio_file : Audio α) :
    (generate_audio_chunks split_on_silence min_silence_len silence_threshold
        max_chunk_length audio_file = none ↔
      split_to_chunks_shorter_than_max split_on_silence min_silence_len
        silence_threshold max_chunk_length audio_file = []) ∧
    generate_audio_chunks split_on_silence min_silence_len silence_threshold
      max_chunk_length audio_file ≠ some ([] : List (Audio α)) ∧
    (split_on_silence audio_file min_silence_len silence_threshold = [] →
      generate_audio_chunks split_on_silence min_silence_len silence_threshold
        max_chunk_length audio_file = none) := by
  refine ⟨?_, ?_, ?_⟩
  · unfold generate_audio_chunks
    cases hsc : split_to_chunks_shorter_than_max split_on_silence
        min_silence_len silence_threshold max_chunk_length audio_file with
    | nil => simp
    | cons s0 rest => simp
  · unfold generate_audio_chunks
    cases hsc : split_to_chunks_shorter_than_max split_on_silence
        min_silence_len silence_threshold max_chunk_length audio_file with
    | nil => simp
    | cons s0 rest =>
      simp only [ne_eq, Option.some.injEq]
      exact coalesceChunks_ne_nil max_chunk_length rest s0
  · intro hdet
    unfold generate_audio_chunks
    rw [split_to_chunks_shorter_than_max, hdet]
    rfl

/-- A name absent from every record makes the ledger lookup miss. -/
theorem findIdx?_name_none (dataset_name : String) (l : List DsRecord)
    (h : ∀ r ∈ l, r.ds_name ≠ dataset_name) :
    l.findIdx? (fun d => d.ds_name == dataset_name) = none := by
  rw [List.findIdx?_eq_none_iff]
  intro r hr
  simp only [beq_eq_false_iff_ne, ne_eq]
  exact h r hr

/-- Looking a fresh name up right after `check_dataset_progress` appended its
record finds exactly that appended record. -/
theorem findIdx?_append_fresh (dataset_name : String) (l : List DsRecord)
    (r : DsRecord) (h : ∀ x ∈ l, x.ds_name ≠ dataset_name)
    (hr : r.ds_name = dataset_name) :
    (l ++ [r]).findIdx? (fun d => d.ds_name == dataset_name) = some l.length := by
  rw [List.findIdx?_append, findIdx?_name_none dataset_name l h]
  simp [List.findIdx?_cons, hr]

/-- Modifying the freshly appended last element of a list rewrites exactly
that element. -/
theorem modify_concat {α : Type} (f : α → α) :
    ∀ (l : List α) (x : α), (l ++ [x]).modify f l.length = l ++ [f x] := by
  intro l
  induction l with
  | nil => intro x; rfl
  | cons a rest ih =>
    intro x
    show (a :: (rest ++ [x])).modify f (rest.length + 1) = a :: (rest ++ [f x])
    rw [List.modify_succ_cons, ih]

/-- C6: `check_dataset_progress` idempotence and read-back.  A second lookup
of the same name never appends a duplicate record (for any starting state);
for a name the ledger has not seen, the active record after the lookup is
the fresh entry `processed = false`, `last_processed_chunk = -1`,
`total_processed_length = 0`; after `update_dataset_progress c t` the
accessors return exactly `c` and `t`; and a re-lookup of the same name
restores the same two values. -/
theorem check_dataset_progress_idempotent_readback (s : ProgressState)
    (dataset_name : String) (c : Int) (t : Nat)
    (hfresh : ∀ r ∈ s.datasets, r.ds_name ≠ dataset_name) :
    (∀ s' : ProgressState,
      (check_dataset_progress dataset_name
          (check_dataset_progress dataset_name s')).datasets =
        (check_dataset_progress dataset_name s').datasets) ∧
    currentRecord (check_dataset_progress dataset_name s) =
      some (freshEntry dataset_name) ∧
    get_dataset_last_processed_chunk
      (update_dataset_progress c t (check_dataset_progress dataset_name s)) =
        some c ∧
    get_dataset_total_processed_length
      (update_dataset_progress c t (check_dataset_progress dataset_name s)) =
        some t ∧
    get_dataset_last_processed_chunk
      (check_dataset_progress dataset_name
        (update_dataset_progress c t (check_dataset_progress dataset_name s))) =
          some c ∧
    get_dataset_total_processed_length
      (check_dataset_progress dataset_name
        (update_dataset_progress c t (check_dataset_progress dataset_name s))) =
          some t := by
  obtain ⟨ds0, ci0⟩ := s
  simp only at hfresh
  have hchk : check_dataset_progress dataset_name ⟨ds0, ci0⟩ =
      ⟨ds0 ++ [freshEntry dataset_name], some ds0.length⟩ := by
    simp only [check_dataset_progress, findIdx?_name_none dataset_name ds0 hfresh]
  have hcur : currentRecord (check_dataset_progress dataset_name ⟨ds0, ci0⟩) =
      some (freshEntry dataset_name) := by
    rw [hchk]
    show (ds0 ++ [freshEntry dataset_name])[ds0.length]? = _
    exact List.getElem?_concat_length _ _
  have hupd : update_dataset_progress c t (check_dataset_progress dataset_name ⟨ds0, ci0⟩) =
      ⟨ds0 ++ [{ freshEntry dataset_name with last_processed_chunk := c, total_processed_length := t }], some ds0.length⟩ := by
    rw [hchk]
    simp only [update_dataset_progress]
    rw [modify_concat]
  have hrecupd : currentRecord (update_dataset_progress c t
      (check_dataset_progress dataset_name ⟨ds0, ci0⟩)) =
      some { freshEntry dataset_name with last_processed_chunk := c, total_processed_length := t } := by
    rw [hupd]
    show (ds0 ++ [{ freshEntry dataset_name with last_processed_chunk := c, total_processed_length := t }])[ds0.length]? = _
    exact List.getElem?_concat_length _ _
  have hrelook : check_dataset_progress dataset_name
      (update_dataset_progress c t (check_dataset_progress dataset_name ⟨ds0, ci0⟩)) =
      update_dataset_progress c t (check_dataset_progress dataset_name ⟨ds0, ci0⟩) := by
    rw [hupd]
    simp only [check_dataset_progress,
      findIdx?_append_fresh dataset_name ds0
        { freshEntry dataset_name with last_processed_chunk := c, total_processed_length := t }
        hfresh rfl]
  refine ⟨?_, hcur, ?_, ?_, ?_, ?_⟩
  · intro s'
    obtain ⟨ds', ci'⟩ := s'
    cases hidx : ds'.findIdx? (fun d => d.ds_name == dataset_name) with
    | some i =>
      have h1 : check_dataset_progress dataset_name ⟨ds', ci'⟩ = ⟨ds', some i⟩ := by
        simp only [check_dataset_progress, hidx]
      rw [h1]
      have h2 : check_dataset_progress dataset_name ⟨ds', some i⟩ = ⟨ds', some i⟩ := by
        simp only [check_dataset_progress, hidx]
      rw [h2]
    | none =>
      have hall : ∀ r ∈ ds', r.ds_name ≠ dataset_name := by
        intro r hr
        have hb := List.findIdx?_eq_none_iff.mp hidx r hr
        simpa using hb
      have h1 : check_dataset_progress dataset_name ⟨ds', ci'⟩ =
          ⟨ds' ++ [freshEntry dataset_name], some ds'.length⟩ := by
        simp only [check_dataset_progress, hidx]
      rw [h1]
      have h2 : check_dataset_progress dataset_name
          ⟨ds' ++ [freshEntry dataset_name], some ds'.length⟩ =
          ⟨ds' ++ [freshEntry dataset_name], some ds'.length⟩ := by
        simp only [check_dataset_progress,
          findIdx?_append_fresh dataset_name ds' (freshEntry dataset_name) hall rfl]
      rw [h2]
  · rw [get_dataset_last_processed_chunk, hrecupd]
    rfl
  · rw [get_dataset_total_processed_length, hrecupd]
    rfl
  · rw [get_dataset_last_processed_chunk, hrelook, hrecupd]
    rfl
  · rw [get_dataset_total_processed_length, hrelook, hrecupd]
    rfl

/-- Witness for C6: the specification's concrete scenario — an empty ledger,
name `ds1`, then `updateProgress(3, 15000)`. -/
theorem check_dataset_progress_idempotent_readback_witness :
    (∀ s' : ProgressState,
      (check_dataset_progress "ds1" (check_dataset_progress "ds1" s')).datasets =
        (check_dataset_progress "ds1" s').datasets) ∧
    currentRecord (check_dataset_progress "ds1" ⟨[], none⟩) =
      some (freshEntry "ds1") ∧
    get_dataset_last_processed_chunk
      (update_dataset_progress 3 15000 (check_dataset_progress "ds1" ⟨[], none⟩)) =
        some 3 ∧
    get_dataset_total_processed_length
      (update_dataset_progress 3 15000 (check_dataset_progress "ds1" ⟨[], none⟩)) =
        some 15000 ∧
    get_dataset_last_processed_chunk
      (check_dataset_progress "ds1"
        (update_dataset_progress 3 15000 (check_dataset_progress "ds1" ⟨[], none⟩))) =
          some 3 ∧
    get_dataset_total_processed_length
      (check_dataset_progress "ds1"
        (update_dataset_progress 3 15000 (check_dataset_progress "ds1" ⟨[], none⟩))) =
          some 15000 :=
  check_dataset_progress_idempotent_readback ⟨[], none⟩ "ds1" 3 15000
    (by intro r hr; simp at hr)

/-- C7: ledger bootstrap versus corruption.  An absent ledger file reads as
the freshly initialized empty document and is persisted at once, raising
nothing; a present but unparsable ledger document propagates the parse
error with no recovery; and a well-formed document is returned unchanged. -/
theorem read_progress_file_bootstrap :
    read_progress_file LedgerFile.absent =
      Except.ok ([], LedgerFile.wellFormed []) ∧
    read_progress_file LedgerFile.malformed =
      Except.error PyError.jsonDecodeError ∧
    (∀ datasets : List DsRecord,
      read_progress_file (LedgerFile.wellFormed datasets) =
        Except.ok (datasets, LedgerFile.wellFormed datasets)) :=
  ⟨rfl, rfl, fun _ => rfl⟩

/-- A successful `findIdx?` returns an index inside the list. -/
theorem findIdx?_lt_length {α : Type} (p : α → Bool) :
    ∀ (l : List α) (i : Nat), l.findIdx? p = some i → i < l.length := by
  intro l
  induction l with
  | nil =>
    intro i h
    rw [List.findIdx?_nil] at h
    cases h
  | cons x xs ih =>
    intro i h
    rw [List.findIdx?_cons] at h
    by_cases hp : p x
    · rw [if_pos hp] at h
      cases h
      simp
    · rw [if_neg hp, List.findIdx?_succ] at h
      cases hidx : xs.findIdx? p with
      | none =>
        rw [hidx] at h
        cases h
      | some j =>
        rw [hidx] at h
        simp only [Option.map_some', Option.some.injEq] at h
        have hj := ih j hidx
        simp only [List.length_cons]
        omega

/-- After `check_dataset_progress` there is always an active record: either
the one found by name, or the freshly appended one. -/
theorem currentRecord_check_isSome (dataset_name : String) (s : ProgressState) :
    ∃ r : DsRecord, currentRecord (check_dataset_progress dataset_name s) = some r := by
  obtain ⟨ds0, ci0⟩ := s
  cases hidx : ds0.findIdx? (fun d => d.ds_name == dataset_name) with
  | some i =>
    have hlt := findIdx?_lt_length _ ds0 i hidx
    refine ⟨ds0.get ⟨i, hlt⟩, ?_⟩
    have h1 : check_dataset_progress dataset_name ⟨ds0, ci0⟩ = ⟨ds0, some i⟩ := by
      simp only [check_dataset_progress, hidx]
    rw [h1]
    show ds0[i]? = _
    rw [List.getElem?_eq_getElem hlt]
    simp [List.get_eq_getElem]
  | none =>
    refine ⟨freshEntry dataset_name, ?_⟩
    have h1 : check_dataset_progress dataset_name ⟨ds0, ci0⟩ =
        ⟨ds0 ++ [freshEntry dataset_name], some ds0.length⟩ := by
      simp only [check_dataset_progress, hidx]
    rw [h1]
    show (ds0 ++ [freshEntry dataset_name])[ds0.length]? = _
    exact List.getElem?_concat_length _ _

/-- What the processing loop does, element by element: it appends one
transcript line and records one transcriber invocation for exactly the
pending chunks — those whose enumerate index escapes the
`i <= last_processed_chunk` skip. -/
theorem processLoop_spec (transcribe : String → String) (dir_path : String)
    (k : Int) :
    ∀ (ds : List DsItem) (i : Nat) (st : LoopState),
      (processLoop transcribe dir_path k i ds st).file =
        st.file ++ (pendingChunks k i ds).map
          (fun p => transcriptLine transcribe dir_path p.2) ∧
      (processLoop transcribe dir_path k i ds st).calls =
        st.calls ++ (pendingChunks k i ds).map Prod.fst := by
  intro ds
  induction ds with
  | nil =>
    intro i st
    simp [processLoop, pendingChunks]
  | cons d rest ih =>
    intro i st
    rw [processLoop, pendingChunks]
    by_cases h : (i : Int) ≤ k
    · rw [if_pos h]
      have hc : processChunk transcribe dir_path k st i d = st := by
        rw [processChunk, if_pos h]
      rw [hc]
      exact ih (i + 1) st
    · rw [if_neg h]
      have hc : processChunk transcribe dir_path k st i d =
          ⟨st.file ++ [transcriptLine transcribe dir_path d], st.calls ++ [i],
            st.current_length + d.len,
            update_dataset_progress (i : Int) (st.current_length + d.len)
              st.progress⟩ := by
        rw [processChunk, if_neg h]
        rfl
      rw [hc]
      obtain ⟨h1, h2⟩ := ih (i + 1)
        ⟨st.file ++ [transcriptLine transcribe dir_path d], st.calls ++ [i],
          st.current_length + d.len,
          update_dataset_progress (i : Int) (st.current_length + d.len)
            st.progress⟩
      constructor
      · rw [h1]
        simp
      · rw [h2]
        simp

/-- The transcript lines of the pending chunks are exactly the full run's
lines with the first `(k - i + 1).toNat` of them dropped. -/
theorem pendingChunks_map_snd_drop {β : Type} (f : DsItem → β) (k : Int) :
    ∀ (ds : List DsItem) (i : Nat),
      (pendingChunks k i ds).map (fun p => f p.2) =
        (ds.map f).drop ((k - i + 1).toNat) := by
  intro ds
  induction ds with
  | nil =>
    intro i
    simp [pendingChunks]
  | cons d rest ih =>
    intro i
    rw [pendingChunks]
    by_cases h : (i : Int) ≤ k
    · rw [if_pos h, ih (i + 1), List.map_cons]
      have harith : (k - i + 1).toNat = (k - (i + 1 : Nat) + 1).toNat + 1 := by
        push_cast
        omega
      rw [harith, List.drop_succ_cons]
    · rw [if_neg h, List.map_cons, List.map_cons, ih (i + 1)]
      have h0 : (k - i + 1).toNat = 0 := by omega
      have h0' : (k - (i + 1 : Nat) + 1).toNat = 0 := by
        push_cast
        omega
      rw [h0, h0', List.drop_zero, List.drop_zero]

/-- The invoked indices of the pending chunks are exactly the enumerate
indices strictly above the checkpoint. -/
theorem pendingChunks_map_fst_filter (k : Int) :
    ∀ (ds : List DsItem) (i : Nat),
      (pendingChunks k i ds).map Prod.fst =
        (List.range' i ds.length).filter (fun (j : Nat) => decide (k < (j : Int))) := by
  intro ds
  induction ds with
  | nil =>
    intro i
    simp [pendingChunks]
  | cons d rest ih =>
    intro i
    rw [pendingChunks, List.length_cons, List.range'_succ, List.filter_cons]
    by_cases h : (i : Int) ≤ k
    · rw [if_pos h, ih (i + 1)]
      have hd : (decide (k < (i : Int))) = false := by
        simp only [decide_eq_false_iff_not, not_lt]
        exact h
      rw [hd]
      simp
    · rw [if_neg h, List.map_cons, ih (i + 1)]
      have hd : (decide (k < (i : Int))) = true := by
        simp only [decide_eq_true_eq]
        omega
      rw [hd]
      simp

/-- A full run of the driver body over a dataset whose active record is not
yet processed: the loop runs from index 0 and the result records one
transcriber invocation and one appended line per pending chunk. -/
theorem generate_transcript_ds_run (transcribe : String → String)
    (dir_path ds_name : String) (ds : List DsItem) (existing : List String)
    (p0 : ProgressState) (r : DsRecord)
    (hr : currentRecord (check_dataset_progress ds_name p0) = some r)
    (hpf : r.processed = false) :
    ∃ st : LoopState,
      generate_transcript_ds transcribe dir_path ds_name ds existing p0 = some st ∧
      st.calls = (pendingChunks r.last_processed_chunk 0 ds).map Prod.fst ∧
      st.file = existing ++ (pendingChunks r.last_processed_chunk 0 ds).map
        (fun p => transcriptLine transcribe dir_path p.2) := by
  have hip : is_dataset_processed (check_dataset_progress ds_name p0) =
      some false := by
    rw [is_dataset_processed, hr, Option.map_some', hpf]
  have hlast : get_dataset_last_processed_chunk (check_dataset_progress ds_name p0) =
      some r.last_processed_chunk := by
    rw [get_dataset_last_processed_chunk, hr]
    rfl
  have htot : get_dataset_total_processed_length (check_dataset_progress ds_name p0) =
      some r.total_processed_length := by
    rw [get_dataset_total_processed_length, hr]
    rfl
  refine ⟨{ processLoop transcribe dir_path r.last_processed_chunk 0 ds
      ⟨existing, [], r.total_processed_length, check_dataset_progress ds_name p0⟩ with
      progress := mark_dataset_as_processed (processLoop transcribe dir_path
        r.last_processed_chunk 0 ds ⟨existing, [], r.total_processed_length,
          check_dataset_progress ds_name p0⟩).progress }, ?_, ?_, ?_⟩
  · simp only [generate_transcript_ds, hip, hlast, htot]
  · show (processLoop transcribe dir_path r.last_processed_chunk 0 ds
      ⟨existing, [], r.total_processed_length,
        check_dataset_progress ds_name p0⟩).calls = _
    obtain ⟨-, h2⟩ := processLoop_spec transcribe dir_path
      r.last_processed_chunk ds 0
      ⟨existing, [], r.total_processed_length, check_dataset_progress ds_name p0⟩
    rw [h2]
    rfl
  · show (processLoop transcribe dir_path r.last_processed_chunk 0 ds
      ⟨existing, [], r.total_processed_length,
        check_dataset_progress ds_name p0⟩).file = _
    obtain ⟨h1, -⟩ := processLoop_spec transcribe dir_path
      r.last_processed_chunk ds 0
      ⟨existing, [], r.total_processed_length, check_dataset_progress ds_name p0⟩
    rw [h1]

/-- C1: resume idempotence of the pipeline driver.  If the ledger's active
record for the dataset has `processed = true`, `generate_transcript` skips
the dataset without invoking the transcriber and without touching the output
artifact.  Otherwise, with `lastProcessedIndex = k`, the run invokes the
transcriber exactly on the enumerate indices greater than `k`, in order, and
appends exactly the corresponding lines; in particular, when the existing
artifact holds precisely the lines of the first `k + 1` units (what an
uninterrupted run flushes before checkpointing unit `k`), the resumed run's
artifact is identical to an uninterrupted run's full line list. -/
theorem generate_transcript_resume_idempotent (transcribe : String → String)
    (dir_path ds_name : String) (ds : List DsItem)
    (existing_output : List String) (p0 : ProgressState) (k : Int) :
    (is_dataset_processed (check_dataset_progress ds_name p0) = some true →
      generate_transcript_ds transcribe dir_path ds_name ds existing_output p0 =
        some ⟨existing_output, [], 0, check_dataset_progress ds_name p0⟩) ∧
    (is_dataset_processed (check_dataset_progress ds_name p0) = some false →
     get_dataset_last_processed_chunk (check_dataset_progress ds_name p0) = some k →
      ∃ st : LoopState,
        generate_transcript_ds transcribe dir_path ds_name ds existing_output p0 =
          some st ∧
        st.calls = (List.range' 0 ds.length).filter (fun (j : Nat) => decide (k < (j : Int))) ∧
        st.file = existing_output ++
          (ds.map (transcriptLine transcribe dir_path)).drop ((k + 1).toNat)) ∧
    (is_dataset_processed (check_dataset_progress ds_name p0) = some false →
     get_dataset_last_processed_chunk (check_dataset_progress ds_name p0) = some k →
      ∃ st : LoopState,
        generate_transcript_ds transcribe dir_path ds_name ds
            ((ds.map (transcriptLine transcribe dir_path)).take ((k + 1).toNat)) p0 =
          some st ∧
        st.file = ds.map (transcriptLine transcribe dir_path)) := by
  obtain ⟨r, hr⟩ := currentRecord_check_isSome ds_name p0
  have hip : is_dataset_processed (check_dataset_progress ds_name p0) =
      some r.processed := by
    rw [is_dataset_processed, hr]
    rfl
  have hlast : get_dataset_last_processed_chunk (check_dataset_progress ds_name p0) =
      some r.last_processed_chunk := by
    rw [get_dataset_last_processed_chunk, hr]
    rfl
  have htot : get_dataset_total_processed_length (check_dataset_progress ds_name p0) =
      some r.total_processed_length := by
    rw [get_dataset_total_processed_length, hr]
    rfl
  refine ⟨?_, ?_, ?_⟩
  · intro htrue
    simp only [generate_transcript_ds, htrue, hlast, htot]
  · intro hfalse hk
    have hpf : r.processed = false := Option.some.inj (hip.symm.trans hfalse)
    have hkk : r.last_processed_chunk = k := Option.some.inj (hlast.symm.trans hk)
    obtain ⟨st, hgen, hcalls, hfile⟩ := generate_transcript_ds_run transcribe
      dir_path ds_name ds existing_output p0 r hr hpf
    refine ⟨st, hgen, ?_, ?_⟩
    · rw [hcalls, hkk, pendingChunks_map_fst_filter k ds 0]
    · rw [hfile, hkk, pendingChunks_map_snd_drop (transcriptLine transcribe dir_path) k ds 0]
      have harith : (k - (0 : Nat) + 1).toNat = (k + 1).toNat := by
        push_cast
        omega
      rw [harith]
  · intro hfalse hk
    have hpf : r.processed = false := Option.some.inj (hip.symm.trans hfalse)
    have hkk : r.last_processed_chunk = k := Option.some.inj (hlast.symm.trans hk)
    obtain ⟨st, hgen, -, hfile⟩ := generate_transcript_ds_run transcribe
      dir_path ds_name ds
      ((ds.map (transcriptLine transcribe dir_path)).take ((k + 1).toNat)) p0 r hr hpf
    refine ⟨st, hgen, ?_⟩
    rw [hfile, hkk, pendingChunks_map_snd_drop (transcriptLine transcribe dir_path) k ds 0]
    have harith : (k - (0 : Nat) + 1).toNat = (k + 1).toNat := by
      push_cast
      omega
    rw [harith, List.take_append_drop]

/-- C8 counterexample: processing one fresh unit appends a single line — the
transcription text — to the output artifact, not a `start -> end` time-range
label line followed by the text.  With one chunk and a transcriber returning
`hello`, the artifact gains exactly the one line `hello\n` and no
two-line label/text pair. -/
theorem generate_transcript_no_label_cex :
    (generate_transcript_ds (fun _ => "hello") "output" "ds1"
        [⟨"chunk0000", 5⟩] [] ⟨[], none⟩).map LoopState.file =
      some ["hello\n"] ∧
    ¬ ∃ label text : String,
      (generate_transcript_ds (fun _ => "hello") "output" "ds1"
          [⟨"chunk0000", 5⟩] [] ⟨[], none⟩).map LoopState.file =
        some [label, text] := by
  have hval : (generate_transcript_ds (fun _ => "hello") "output" "ds1"
      [⟨"chunk0000", 5⟩] [] ⟨[], none⟩).map LoopState.file = some ["hello\n"] := by
    decide
  refine ⟨hval, ?_⟩
  rintro ⟨label, text, h⟩
  rw [hval] at h
  simp only [Option.some.injEq] at h
  have hlen := congrArg List.length h
  simp at hlen

/-- C8 (amended): for every processed segment the driver appends exactly one
flushed line to the dataset's output artifact — the transcriber's text for
`dir_path/filename` terminated by a newline.  No separate `start -> end`
time-range label line is written by the driver loop; timestamp tags occur
only inside the transcriber's own text (the pipeline wrapper prefixes
`[HH:MM:SS.cc]` built by `microseconds_to_audio_timestamp` within
`prediction_text` when it returns timestamps). -/
theorem generate_transcript_output_format (transcribe : String → String)
    (dir_path ds_name : String) (ds : List DsItem)
    (existing_output : List String) (p0 : ProgressState) (k : Int)
    (hfalse : is_dataset_processed (check_dataset_progress ds_name p0) = some false)
    (hk : get_dataset_last_processed_chunk (check_dataset_progress ds_name p0) = some k) :
    ∃ st : LoopState,
      generate_transcript_ds transcribe dir_path ds_name ds existing_output p0 =
        some st ∧
      st.file = existing_output ++ (pendingChunks k 0 ds).map
        (fun p => transcribe (dir_path ++ "/" ++ p.2.filename) ++ "\n") := by
  obtain ⟨r, hr⟩ := currentRecord_check_isSome ds_name p0
  have hip : is_dataset_processed (check_dataset_progress ds_name p0) =
      some r.processed := by
    rw [is_dataset_processed, hr]
    rfl
  have hlast : get_dataset_last_processed_chunk (check_dataset_progress ds_name p0) =
      some r.last_processed_chunk := by
    rw [get_dataset_last_processed_chunk, hr]
    rfl
  have hpf : r.processed = false := Option.some.inj (hip.symm.trans hfalse)
  have hkk : r.last_processed_chunk = k := Option.some.inj (hlast.symm.trans hk)
  obtain ⟨st, hgen, -, hfile⟩ := generate_transcript_ds_run transcribe dir_path
    ds_name ds existing_output p0 r hr hpf
  refine ⟨st, hgen, ?_⟩
  rw [hfile, hkk]
  rfl

/-- Witness for C8 (amended): one fresh chunk, transcriber returning
`hello`. -/
theorem generate_transcript_output_format_witness :
    ∃ st : LoopState,
      generate_transcript_ds (fun _ => "hello") "output" "ds1"
          [⟨"chunk0000", 5⟩] [] ⟨[], none⟩ =
        some st ∧
      st.file = [] ++ (pendingChunks (-1) 0 [⟨"chunk0000", 5⟩]).map
        (fun p => (fun _ => "hello") ("output" ++ "/" ++ p.2.filename) ++ "\n") :=
  generate_transcript_output_format (fun _ => "hello") "output" "ds1"
    [⟨"chunk0000", 5⟩] [] ⟨[], none⟩ (-1) (by decide) (by decide)

/-- C2 counterexample: a directory whose only entry is an empty directory
archives to exactly the same bytes as the directory with no entries at all
(`os.walk` stores files only, so neither tree contributes a member), and
extraction of that archive yields no member.  Hence
`decrypt_and_unzip (encrypt_and_zip X)` cannot reproduce every `X`
byte-for-byte including its relative directory layout: two different trees
share one archive, and the empty directory `d/e` is lost. -/
theorem archive_roundtrip_cex :
    encrypt_and_zip (id : List Member → List Member) id
        (FsTree.dir "d" [FsTree.dir "e" []]) =
      encrypt_and_zip (id : List Member → List Member) id (FsTree.dir "d" []) ∧
    FsTree.dir "d" [FsTree.dir "e" []] ≠ FsTree.dir "d" [] ∧
    decrypt_and_unzip (id : List Member → List Member) id
      (encrypt_and_zip (id : List Member → List Member) id
        (FsTree.dir "d" [FsTree.dir "e" []])) = [] := by
  refine ⟨?_, ?_, ?_⟩
  · simp [encrypt_and_zip, treeMembers, childDirMembers, childFileEntry]
  · intro h
    simp at h
  · simp [decrypt_and_unzip, encrypt_and_zip, treeMembers, childDirMembers,
      childFileEntry]

/-- C2 (amended): archive round-trip at the file level — provided the zip
serializer and the Fernet cipher invert themselves (their documented
contracts), `decrypt_and_unzip` after `encrypt_and_zip` yields exactly the
input tree's file members: every file's bytes unchanged, under its path
relative to the input directory's parent.  A tree in which every directory
contains a file is therefore reproduced byte-for-byte with its relative
layout; empty directories are the sole loss (they contribute no member). -/
theorem archive_roundtrip_members {β : Type} (zipBytes : List Member → β)
    (unzipBytes : β → List Member) (encrypt decrypt : β → β)
    (hzip : ∀ ms : List Member, unzipBytes (zipBytes ms) = ms)
    (hcrypt : ∀ b : β, decrypt (encrypt b) = b) (path : FsTree) :
    decrypt_and_unzip unzipBytes decrypt (encrypt_and_zip zipBytes encrypt path) =
      treeMembers path := by
  rw [decrypt_and_unzip, encrypt_and_zip, hcrypt, hzip]

/-- Witness for C2 (amended): a directory with a file and a populated
subdirectory, under identity codecs. -/
theorem archive_roundtrip_members_witness :
    decrypt_and_unzip (id : List Member → List Member) id
        (encrypt_and_zip (id : List Member → List Member) id
          (FsTree.dir "d" [FsTree.file "f" [7],
            FsTree.dir "s" [FsTree.file "g" [8]]])) =
      treeMembers (FsTree.dir "d" [FsTree.file "f" [7],
        FsTree.dir "s" [FsTree.file "g" [8]]]) :=
  archive_roundtrip_members id id id id (fun _ => rfl) (fun _ => rfl) _

/-- A list without the separator has no last-separator split. -/
theorem splitRight_of_not_mem {α : Type} [DecidableEq α] (sep : α) :
    ∀ l : List α, sep ∉ l → splitRight sep l = none := by
  intro l
  induction l with
  | nil => intro _; rfl
  | cons c rest ih =>
    intro h
    rw [splitRight, ih (fun hm => h (List.mem_cons_of_mem c hm))]
    rw [if_neg (fun hc => h (by rw [hc]; exact List.mem_cons_self _ _))]

/-- The function `splitRight` splits at the last occurrence of the separator. -/
theorem splitRight_append {α : Type} [DecidableEq α] (sep : α) :
    ∀ (xs ys : List α), sep ∉ ys →
      splitRight sep (xs ++ sep :: ys) = some (xs, ys) := by
  intro xs
  induction xs with
  | nil =>
    intro ys hy
    show splitRight sep (sep :: ys) = some ([], ys)
    rw [splitRight, splitRight_of_not_mem sep ys hy]
    show (if sep = sep then some ([], ys) else none) = some ([], ys)
    rw [if_pos rfl]
  | cons x rest ih =>
    intro ys hy
    show splitRight sep (x :: (rest ++ sep :: ys)) = some (x :: rest, ys)
    rw [splitRight, ih ys hy]

/-- C9 counterexample: for a bare logical name with no directory part,
stripping the two suffixes does not recover the original string —
`Path('a.zip.crypt').parent` is `.`, and `os.path.join` re-prefixes it, so
`remove_file_extension (add_file_extension "a")` is `./a`, not `a`. -/
theorem remove_add_file_extension_cex :
    remove_file_extension (add_file_extension ("a".toList)) ≠ "a".toList ∧
    remove_file_extension (add_file_extension ("a".toList)) = "./a".toList := by
  constructor
  · decide
  · decide

/-- C9 (amended): on every logical name with a nonempty directory part (the
form produced by the S3 listing keys the helper parses), stripping the two
suffixes exactly undoes appending them: for `p = d ++ "/" ++ nm` with `d`
nonempty and not ending in a separator and `nm` a nonempty final component,
`remove_file_extension (add_file_extension p) = p`.  For a bare name the
result is instead prefixed with `./` (same location, different string). -/
theorem remove_add_file_extension_id (d nm : List Char) (hd : d ≠ [])
    (hdlast : d.getLast? ≠ some ('/')) (hnm : nm ≠ []) (hsep : '/' ∉ nm) :
    remove_file_extension (add_file_extension (d ++ '/' :: nm)) =
      d ++ '/' :: nm := by
  rw [add_file_extension]
  have hform : (d ++ '/' :: nm) ++ ".zip".toList ++ ".crypt".toList =
      d ++ '/' :: (nm ++ ".zip".toList ++ ".crypt".toList) := by
    simp
  rw [hform, remove_file_extension]
  have hdotcrypt : '.' ∉ "crypt".toList := by decide
  have hdotzip : '.' ∉ "zip".toList := by decide
  have hslashext : '/' ∉ nm ++ ".zip".toList ++ ".crypt".toList := by
    intro hm
    rcases List.mem_append.mp hm with hm1 | hm2
    · rcases List.mem_append.mp hm1 with hm1a | hm1b
      · exact hsep hm1a
      · exact absurd hm1b (by decide)
    · exact absurd hm2 (by decide)
  have hname : pathName (d ++ '/' :: (nm ++ ".zip".toList ++ ".crypt".toList)) =
      nm ++ ".zip".toList ++ ".crypt".toList := by
    rw [pathName, splitRight_append ('/') d _ hslashext]
  have hparent : pathParent (d ++ '/' :: (nm ++ ".zip".toList ++ ".crypt".toList)) =
      d := by
    rw [pathParent, splitRight_append ('/') d _ hslashext]
  rw [hname, hparent]
  have hstem1 : pyStem (nm ++ ".zip".toList ++ ".crypt".toList) =
      nm ++ ".zip".toList := by
    have hrepr : nm ++ ".zip".toList ++ ".crypt".toList =
        (nm ++ ".zip".toList) ++ '.' :: "crypt".toList := by
      simp
    rw [hrepr, pyStem, splitRight_append ('.') _ _ hdotcrypt]
    show (if nm ++ ".zip".toList ≠ [] ∧ "crypt".toList ≠ [] then
      nm ++ ".zip".toList else (nm ++ ".zip".toList) ++ '.' :: "crypt".toList) =
        nm ++ ".zip".toList
    rw [if_pos]
    constructor
    · simp
    · decide
  have hstem2 : pyStem (nm ++ ".zip".toList) = nm := by
    have hrepr : nm ++ ".zip".toList = nm ++ '.' :: "zip".toList := by
      simp
    rw [hrepr, pyStem, splitRight_append ('.') nm _ hdotzip]
    show (if nm ≠ [] ∧ "zip".toList ≠ [] then nm else nm ++ '.' :: "zip".toList) = nm
    rw [if_pos ⟨hnm, by decide⟩]
  rw [hstem1, hstem2, osJoin, if_neg hd, if_neg hdlast]

/-- Witness for C9 (amended): the logical name `dir/a`. -/
theorem remove_add_file_extension_id_witness :
    remove_file_extension (add_file_extension ("dir".toList ++ '/' :: "a".toList)) =
      "dir".toList ++ '/' :: "a".toList :=
  remove_add_file_extension_id ("dir".toList) ("a".toList) (by decide)
    (by decide) (by decide) (by decide)

end Whisper
